import Mathlib

/-!
Verification of the coordination primitives of the `node-redis-utils`
library (`src/redis-utils/redis-client.ts`): the distributed lock, the
throttle limiter, the atomic counter and the serial-number allocator.

The remote key-value store is modelled as a map from keys to values
together with a map from keys to remaining time-to-live.  Each ioredis
command used by the library (`setnx`, `expire`, `del`, `incr`, `incrby`,
`decr`, `decrby`, `set`, `get`, `hincrby`) is embedded as a pure function
on this state, following the documented Redis semantics of the command.
The library functions are then translated line by line from the
TypeScript source.
-/

/-- A stored value: Redis stores strings; integer commands operate on
values that parse as integers.  We model a value as either an opaque
string or an integer (an integer stands for its decimal string form). -/
inductive RVal where
  | vstr : String → RVal
  | vint : Int → RVal
deriving DecidableEq

/-- The remote store: a value and an optional remaining TTL (in seconds)
per key.  A key with `val k = none` is absent. -/
structure Store where
  val : String → Option RVal
  ttl : String → Option Int

/-- The store with no keys. -/
def emptyStore : Store := ⟨fun _ => none, fun _ => none⟩

/-- `SET key v`: unconditional write; a plain SET clears any TTL. -/
def sset (key : String) (v : RVal) (s : Store) : Store :=
  ⟨fun k => if k = key then some v else s.val k,
   fun k => if k = key then none else s.ttl k⟩

/-- `SETNX key v`: write only if the key is absent, returning 1 on a
write and 0 otherwise.  A freshly created key has no TTL. -/
def setnx (key : String) (v : RVal) (s : Store) : Nat × Store :=
  match s.val key with
  | some _ => (0, s)
  | none =>
    (1, ⟨fun k => if k = key then some v else s.val k,
         fun k => if k = key then none else s.ttl k⟩)

/-- `EXPIRE key n`: on a present key set the TTL and return 1 — Redis
deletes the key at once when `n ≤ 0`; on an absent key return 0. -/
def expire (key : String) (n : Int) (s : Store) : Nat × Store :=
  match s.val key with
  | none => (0, s)
  | some _ =>
    if n ≤ 0 then
      (1, ⟨fun k => if k = key then none else s.val k,
           fun k => if k = key then none else s.ttl k⟩)
    else
      (1, ⟨s.val, fun k => if k = key then some n else s.ttl k⟩)

/-- `DEL key`: remove the key, returning how many keys were removed. -/
def del (key : String) (s : Store) : Nat × Store :=
  match s.val key with
  | none => (0, s)
  | some _ =>
    (1, ⟨fun k => if k = key then none else s.val k,
         fun k => if k = key then none else s.ttl k⟩)

/-- `INCRBY key a`: an absent key counts as 0 and the created key has no
TTL; an existing integer is incremented in place (TTL untouched); a
non-integer value is a store-side error, modelled as `none`. -/
def incrby (key : String) (a : Int) (s : Store) : Option (Int × Store) :=
  match s.val key with
  | some (RVal.vstr _) => none
  | some (RVal.vint m) =>
    some (m + a, ⟨fun k => if k = key then some (RVal.vint (m + a)) else s.val k, s.ttl⟩)
  | none =>
    some (a, ⟨fun k => if k = key then some (RVal.vint a) else s.val k,
              fun k => if k = key then none else s.ttl k⟩)

/-- `DECRBY key a`: the decrement mirror of `incrby`. -/
def decrby (key : String) (a : Int) (s : Store) : Option (Int × Store) :=
  match s.val key with
  | some (RVal.vstr _) => none
  | some (RVal.vint m) =>
    some (m - a, ⟨fun k => if k = key then some (RVal.vint (m - a)) else s.val k, s.ttl⟩)
  | none =>
    some (-a, ⟨fun k => if k = key then some (RVal.vint (-a)) else s.val k,
               fun k => if k = key then none else s.ttl k⟩)

/-- The passage of `n` seconds of wall-clock time: every key whose TTL is
at most `n` is deleted by the store, every other TTL counts down. -/
def elapse (n : Int) (s : Store) : Store :=
  ⟨fun k => match s.ttl k with
     | some m => if m ≤ n then none else s.val k
     | none => s.val k,
   fun k => match s.ttl k with
     | some m => if m ≤ n then none else some (m - n)
     | none => none⟩

/-- JavaScript truthiness of an optional numeric argument: `if (c)` is
taken when `c` is present and non-zero (`undefined` and `0` are falsy). -/
def numTruthy : Option Int → Bool
  | none => false
  | some v => v != 0

/-- The amount an `incr(c)` / `decr(c)` call actually applies: the code
branches on `if (c)`, so an omitted or zero argument falls through to the
by-one command while any non-zero `c` is applied as given. -/
def effAmt (c : Option Int) : Int :=
  if numTruthy c then c.getD 0 else 1

/-- A remote command issued by the lock, recorded in acquisition order. -/
inductive Cmd where
  | csetnx : String → RVal → Cmd
  | cexpire : String → Int → Cmd
deriving DecidableEq

/-- Outcome of one `lock(key, seconds)` call (`redis-client.ts:74-92`):
the returned handle (or `null`), the final store, the list of remote
commands issued, and `mid`, the store state after the first remote
command completed — the state other clients can observe between the
`setnx` and the `expire`. -/
structure LockAttempt where
  result : Option Unit
  final : Store
  trace : List Cmd
  mid : Store

/-- `lock(key, seconds)`: `setnx key "locked"`; on 0 return `null`,
otherwise issue a separate `expire key (seconds ?? 30)` and return a
handle.  Two distinct remote commands, faithfully kept apart. -/
def lockAcquire (key : String) (seconds : Option Int) (s : Store) : LockAttempt :=
  let r := setnx key (RVal.vstr "locked") s
  if r.1 = 0 then
    ⟨none, r.2, [Cmd.csetnx key (RVal.vstr "locked")], r.2⟩
  else
    let e := expire key (seconds.getD 30) r.2
    ⟨some (), e.2,
     [Cmd.csetnx key (RVal.vstr "locked"), Cmd.cexpire key (seconds.getD 30)],
     r.2⟩

/-- `release()` of a lock handle: an unconditional `del key`. -/
def lockRelease (key : String) (s : Store) : Store := (del key s).2

/-- `counter(key, value)` construction (`redis-client.ts:100-128`): an
unconditional `set key (value ?? 0)` runs before the handle is returned. -/
def counterNew (key : String) (value : Option Int) (s : Store) : Store :=
  sset key (RVal.vint (value.getD 0)) s

/-- Counter `get()`: `Number.parseInt(val ?? "0")`.  An absent key reads
as 0; the keys this helper writes always hold integers, and a stored
integer parses to itself.  A non-numeric string parses to `NaN`,
modelled as `none` (trailing-garbage parsing is not exercised by any key
this library writes). -/
def counterGet (s : Store) (key : String) : Option Int :=
  match s.val key with
  | none => some 0
  | some (RVal.vint m) => some m
  | some (RVal.vstr t) => t.toInt?

/-- Counter `incr(c)`: `if (c) incrby key c else incr key`, returning the
new value (`INCR` is `INCRBY` by 1). -/
def counterIncr (key : String) (c : Option Int) (s : Store) : Option (Int × Store) :=
  if numTruthy c then incrby key (c.getD 0) s else incrby key 1 s

/-- Counter `decr(c)`: `if (c) decrby key c else decr key`, returning the
new value (`DECR` is `DECRBY` by 1). -/
def counterDecr (key : String) (c : Option Int) (s : Store) : Option (Int × Store) :=
  if numTruthy c then decrby key (c.getD 0) s else decrby key 1 s

/-- Throttle `incr(c)` (`redis-client.ts:150-165`): both branches of
`if (c)` increment (`incrby key c` resp. `incr key`), issue
`expire key seconds` exactly when the resulting count equals 1, and
return `count > maxValue`. -/
def throttleIncr (key : String) (maxValue seconds : Int) (c : Option Int)
    (s : Store) : Option (Bool × Store) :=
  if numTruthy c then
    match incrby key (c.getD 0) s with
    | none => none
    | some (count, s₁) =>
      let s₂ := if count = 1 then (expire key seconds s₁).2 else s₁
      some (decide (count > maxValue), s₂)
  else
    match incrby key 1 s with
    | none => none
    | some (count, s₁) =>
      let s₂ := if count = 1 then (expire key seconds s₁).2 else s₁
      some (decide (count > maxValue), s₂)

/-- Results of `n` successive single-unit `throttle.incr()` calls, in
call order, together with the final store. -/
def throttleRunVals (key : String) (maxValue seconds : Int) :
    Nat → Store → Option (List Bool × Store)
  | 0, s => some ([], s)
  | n + 1, s =>
    match throttleRunVals key maxValue seconds n s with
    | none => none
    | some (bs, s₁) =>
      match throttleIncr key maxValue seconds none s₁ with
      | none => none
      | some (b, s₂) => some (bs ++ [b], s₂)

/-- One hash of the store, as used by `serial(key)`: a map from field
names to the integer the field holds (`HINCRBY` only ever sees integer
fields on the keys this helper touches). -/
def Hash : Type := String → Option Int

/-- The hash with no fields. -/
def emptyHash : Hash := fun _ => none

/-- `HINCRBY key field a`: an absent field counts as 0; returns the
post-increment value. -/
def hincrby (h : Hash) (field : String) (a : Int) : Int × Hash :=
  let n := (h field).getD 0 + a
  (n, fun f => if f = field then some n else h f)

/-- Serial `getOne(field)` (`redis-client.ts:395-398`): `hincrby` by 1,
returning the post-increment value. -/
def serialGetOne (h : Hash) (field : String) : Int × Hash :=
  hincrby h field 1

/-- Serial `getMany(field, count)` (`redis-client.ts:400-411`): `hincrby`
by `count`, then the loop `for (i = num - count + 1; i <= num; i++)`
collects the allocated range, which runs `max count 0` times. -/
def serialGetMany (h : Hash) (field : String) (count : Int) : List Int × Hash :=
  let r := hincrby h field count
  ((List.range count.toNat).map fun i : Nat => r.1 - count + 1 + (i : Int), r.2)

/-- One operation of a counter-call sequence. -/
inductive CtrOp where
  | cincr : Option Int → CtrOp
  | cdecr : Option Int → CtrOp
deriving DecidableEq

/-- The signed amount an operation applies to the stored value. -/
def ctrOpDelta : CtrOp → Int
  | CtrOp.cincr c => effAmt c
  | CtrOp.cdecr c => -(effAmt c)

/-- The amount named by a call: an omitted argument names 1. -/
def ctrOpAmt : CtrOp → Int
  | CtrOp.cincr c => c.getD 1
  | CtrOp.cdecr c => c.getD 1

/-- A call names a positive amount (or omits it). -/
def ctrOpPos : CtrOp → Prop
  | CtrOp.cincr none => True
  | CtrOp.cincr (some v) => 0 < v
  | CtrOp.cdecr none => True
  | CtrOp.cdecr (some v) => 0 < v

instance : DecidablePred ctrOpPos := fun op => by
  cases op with
  | cincr c =>
    cases c with
    | none => exact isTrue trivial
    | some v => exact inferInstanceAs (Decidable (0 < v))
  | cdecr c =>
    cases c with
    | none => exact isTrue trivial
    | some v => exact inferInstanceAs (Decidable (0 < v))

/-- Run a sequence of counter calls, collecting each returned value. -/
def counterRun (key : String) : List CtrOp → Store → Option (List Int × Store)
  | [], s => some ([], s)
  | op :: ops, s =>
    let step := match op with
      | CtrOp.cincr c => counterIncr key c s
      | CtrOp.cdecr c => counterDecr key c s
    match step with
    | none => none
    | some (v, s₁) =>
      match counterRun key ops s₁ with
      | none => none
      | some (vs, s₂) => some (v :: vs, s₂)

/-- The values the calls of a sequence return, starting from value `m`:
each call returns the running value after its own delta. -/
def runVals (m : Int) : List CtrOp → List Int
  | [] => []
  | op :: ops => (m + ctrOpDelta op) :: runVals (m + ctrOpDelta op) ops

/-- Sum of the amounts of the increment calls of a sequence. -/
def incrAmtSum (ops : List CtrOp) : Int :=
  (ops.filterMap fun op => match op with
    | CtrOp.cincr c => some (c.getD 1)
    | CtrOp.cdecr _ => none).sum

/-- Sum of the amounts of the decrement calls of a sequence. -/
def decrAmtSum (ops : List CtrOp) : Int :=
  (ops.filterMap fun op => match op with
    | CtrOp.cincr _ => none
    | CtrOp.cdecr c => some (c.getD 1)).sum

/-- The key reads as the integer `m`: it holds `m`, or is absent and `m`
is 0 (the value every integer command starts an absent key from). -/
def intAt (s : Store) (key : String) (m : Int) : Prop :=
  s.val key = some (RVal.vint m) ∨ (s.val key = none ∧ m = 0)

instance (s : Store) (key : String) (m : Int) : Decidable (intAt s key m) := by
  unfold intAt; infer_instance

/-- An absent key carries no TTL — true of every state the store can
reach, since deleting a key removes its TTL. -/
def wfAt (s : Store) (key : String) : Prop :=
  s.val key = none → s.ttl key = none

instance (s : Store) (key : String) : Decidable (wfAt s key) := by
  unfold wfAt; infer_instance

theorem incrby_int (key : String) (a : Int) (s : Store) (m : Int)
    (h : intAt s key m) (hwf : wfAt s key) :
    ∃ s₁, incrby key a s = some (m + a, s₁) ∧
      s₁.val key = some (RVal.vint (m + a)) ∧ s₁.ttl key = s.ttl key := by
  rcases h with hv | ⟨hv, hm⟩
  · refine ⟨⟨fun k => if k = key then some (RVal.vint (m + a)) else s.val k, s.ttl⟩,
      ?_, ?_, ?_⟩ <;> simp [incrby, hv]
  · subst hm
    refine ⟨⟨fun k => if k = key then some (RVal.vint a) else s.val k,
      fun k => if k = key then none else s.ttl k⟩, ?_, ?_, ?_⟩
    · simp [incrby, hv]
    · simp
    · simp [hwf hv]

theorem decrby_int (key : String) (a : Int) (s : Store) (m : Int)
    (h : intAt s key m) (hwf : wfAt s key) :
    ∃ s₁, decrby key a s = some (m - a, s₁) ∧
      s₁.val key = some (RVal.vint (m - a)) ∧ s₁.ttl key = s.ttl key := by
  rcases h with hv | ⟨hv, hm⟩
  · refine ⟨⟨fun k => if k = key then some (RVal.vint (m - a)) else s.val k, s.ttl⟩,
      ?_, ?_, ?_⟩ <;> simp [decrby, hv]
  · subst hm
    refine ⟨⟨fun k => if k = key then some (RVal.vint (-a)) else s.val k,
      fun k => if k = key then none else s.ttl k⟩, ?_, ?_, ?_⟩
    · simp [decrby, hv]
    · simp
    · simp [hwf hv]

theorem expire_pos (key : String) (n : Int) (s : Store) (hn : 0 < n)
    (v : RVal) (h : s.val key = some v) :
    (expire key n s).2.val key = some v ∧ (expire key n s).2.ttl key = some n := by
  simp [expire, h, not_le.mpr hn]

/-- Behaviour of one throttle `incr(c)` call on an integer-valued (or
absent) key, for a positive window: the count advances by the effective
amount, the call returns `count > maxValue`, and the TTL is set to the
window exactly when the new count is 1. -/
theorem throttleIncr_spec (key : String) (maxValue seconds : Int) (c : Option Int)
    (s : Store) (m : Int) (hW : 0 < seconds) (h : intAt s key m) (hwf : wfAt s key) :
    ∃ s', throttleIncr key maxValue seconds c s
        = some (decide (m + effAmt c > maxValue), s') ∧
      s'.val key = some (RVal.vint (m + effAmt c)) ∧
      s'.ttl key = (if m + effAmt c = 1 then some seconds else s.ttl key) := by
  by_cases hc : numTruthy c
  · obtain ⟨s₁, he, hv₁, ht₁⟩ := incrby_int key (c.getD 0) s m h hwf
    have ha : effAmt c = c.getD 0 := by simp [effAmt, hc]
    rw [ha]
    by_cases h1 : m + c.getD 0 = 1
    · obtain ⟨hv₂, ht₂⟩ := expire_pos key seconds s₁ hW _ hv₁
      refine ⟨(expire key seconds s₁).2, ?_, hv₂, ?_⟩
      · simp [throttleIncr, hc, he, h1]
      · rw [if_pos h1]; exact ht₂
    · refine ⟨s₁, ?_, hv₁, ?_⟩
      · simp [throttleIncr, hc, he, h1]
      · rw [if_neg h1]; exact ht₁
  · obtain ⟨s₁, he, hv₁, ht₁⟩ := incrby_int key 1 s m h hwf
    have ha : effAmt c = 1 := by simp [effAmt, hc]
    rw [ha]
    by_cases h1 : m + 1 = 1
    · obtain ⟨hv₂, ht₂⟩ := expire_pos key seconds s₁ hW _ hv₁
      refine ⟨(expire key seconds s₁).2, ?_, hv₂, ?_⟩
      · simp [throttleIncr, hc, he, h1]
      · rw [if_pos h1]; exact ht₂
    · refine ⟨s₁, ?_, hv₁, ?_⟩
      · simp [throttleIncr, hc, he, h1]
      · rw [if_neg h1]; exact ht₁

/-- The boolean a throttle `incr(c)` call returns, for any window value:
the post-increment count compared against the capacity. -/
theorem throttleIncr_result (key : String) (maxValue winSecs : Int) (c : Option Int)
    (s : Store) (m : Int) (h : intAt s key m) (hwf : wfAt s key) :
    (throttleIncr key maxValue winSecs c s).map Prod.fst
      = some (decide (m + effAmt c > maxValue)) := by
  by_cases hc : numTruthy c
  · obtain ⟨s₁, he, _, _⟩ := incrby_int key (c.getD 0) s m h hwf
    have ha : effAmt c = c.getD 0 := by simp [effAmt, hc]
    rw [ha]; simp [throttleIncr, hc, he]
  · obtain ⟨s₁, he, _, _⟩ := incrby_int key 1 s m h hwf
    have ha : effAmt c = 1 := by simp [effAmt, hc]
    rw [ha]; simp [throttleIncr, hc, he]

/-- `n` single-unit throttle increments from an absent key, with a
positive window, return the counts 1, …, n compared against the
capacity, and leave the key holding `n`. -/
theorem throttleRunVals_spec (key : String) (maxValue winSecs : Int) (hW : 0 < winSecs) :
    ∀ (n : Nat) (s : Store), s.val key = none → wfAt s key →
    ∃ s', throttleRunVals key maxValue winSecs n s
        = some ((List.range n).map (fun i : Nat => decide (((i : Int) + 1) > maxValue)), s') ∧
      intAt s' key (n : Int) ∧ wfAt s' key := by
  intro n
  induction n with
  | zero =>
    intro s hv hwf
    exact ⟨s, by simp [throttleRunVals], Or.inr ⟨hv, rfl⟩, hwf⟩
  | succ n ih =>
    intro s hv hwf
    obtain ⟨s₁, h₁, hint, hwf₁⟩ := ih s hv hwf
    obtain ⟨s₂, h₂, hv₂, ht₂⟩ := throttleIncr_spec key maxValue winSecs none s₁ n hW hint hwf₁
    have hone : effAmt none = 1 := by simp [effAmt, numTruthy]
    rw [hone] at h₂ hv₂
    have hcast : (n : Int) + 1 = ((n + 1 : Nat) : Int) := by push_cast; ring
    refine ⟨s₂, ?_, Or.inl ?_, ?_⟩
    · simp [throttleRunVals, h₁, h₂, List.range_succ]
    · rw [hv₂, hcast]
    · intro hnone; rw [hnone] at hv₂; cases hv₂

/-- `counterIncr` applies the effective amount through a single `INCRBY`. -/
theorem counterIncr_eq (key : String) (c : Option Int) (s : Store) :
    counterIncr key c s = incrby key (effAmt c) s := by
  by_cases hc : numTruthy c <;> simp [counterIncr, effAmt, hc]

/-- `counterDecr` applies the effective amount through a single `DECRBY`. -/
theorem counterDecr_eq (key : String) (c : Option Int) (s : Store) :
    counterDecr key c s = decrby key (effAmt c) s := by
  by_cases hc : numTruthy c <;> simp [counterDecr, effAmt, hc]

/-- Running a counter-call sequence from a key holding `m`: every call
returns the running value after its own delta, and the key ends at `m`
plus the sum of the deltas.  The TTL is untouched. -/
theorem counterRun_spec (key : String) (ops : List CtrOp) :
    ∀ (s : Store) (m : Int), s.val key = some (RVal.vint m) →
    ∃ s', counterRun key ops s = some (runVals m ops, s') ∧
      s'.val key = some (RVal.vint (m + (ops.map ctrOpDelta).sum)) ∧
      s'.ttl key = s.ttl key := by
  induction ops with
  | nil =>
    intro s m hv
    exact ⟨s, by simp [counterRun, runVals], by simp [hv], rfl⟩
  | cons op ops ih =>
    intro s m hv
    have hwf : wfAt s key := fun hnone => by rw [hnone] at hv; cases hv
    cases op with
    | cincr c =>
      obtain ⟨s₁, he, hv₁, ht₁⟩ := incrby_int key (effAmt c) s m (Or.inl hv) hwf
      obtain ⟨s₂, he₂, hv₂, ht₂⟩ := ih s₁ (m + effAmt c) hv₁
      have hce : counterIncr key c s = some (m + effAmt c, s₁) :=
        (counterIncr_eq key c s).trans he
      refine ⟨s₂, ?_, ?_, ?_⟩
      · simp [counterRun, hce, he₂, runVals, ctrOpDelta]
      · rw [hv₂]; congr 2; simp [ctrOpDelta]; ring
      · rw [ht₂, ht₁]
    | cdecr c =>
      obtain ⟨s₁, he, hv₁, ht₁⟩ := decrby_int key (effAmt c) s m (Or.inl hv) hwf
      obtain ⟨s₂, he₂, hv₂, ht₂⟩ := ih s₁ (m - effAmt c) hv₁
      have hce : counterDecr key c s = some (m - effAmt c, s₁) :=
        (counterDecr_eq key c s).trans he
      refine ⟨s₂, ?_, ?_, ?_⟩
      · simp [counterRun, hce, he₂, runVals, ctrOpDelta, sub_eq_add_neg]
      · rw [hv₂]; congr 2; simp [ctrOpDelta]; ring
      · rw [ht₂, ht₁]

/-- For a sequence of calls naming positive (or omitted) amounts, the
summed deltas are the increment amounts minus the decrement amounts. -/
theorem deltaSum_of_pos (ops : List CtrOp) (hpos : ∀ op ∈ ops, ctrOpPos op) :
    (ops.map ctrOpDelta).sum = incrAmtSum ops - decrAmtSum ops := by
  induction ops with
  | nil => simp [incrAmtSum, decrAmtSum]
  | cons op ops ih =>
    have hop := hpos op (by simp)
    have hrest : ∀ op ∈ ops, ctrOpPos op := fun o ho => hpos o (by simp [ho])
    have heff : ∀ c : Option Int, ctrOpPos (CtrOp.cincr c) → effAmt c = c.getD 1 := by
      intro c hc
      cases c with
      | none => simp [effAmt, numTruthy]
      | some v =>
        have hv : (0 : Int) < v := hc
        simp [effAmt, numTruthy, hv.ne']
    cases op with
    | cincr c =>
      have := heff c hop
      simp [incrAmtSum, decrAmtSum, ctrOpDelta, List.filterMap_cons, ih hrest, this]
      ring
    | cdecr c =>
      have : effAmt c = c.getD 1 := by
        cases c with
        | none => simp [effAmt, numTruthy]
        | some v =>
          have hv : (0 : Int) < v := hop
          simp [effAmt, numTruthy, hv.ne']
      simp [incrAmtSum, decrAmtSum, ctrOpDelta, List.filterMap_cons, ih hrest, this]
      ring

/-- A successful `lock` call: the `setnx` writes the key bare, the
separate `expire` then attaches the TTL `seconds ?? 30`. -/
theorem lockAcquire_free (key : String) (seconds : Option Int) (s : Store)
    (hv : s.val key = none) (hp : 0 < seconds.getD 30) :
    (lockAcquire key seconds s).result = some () ∧
    (lockAcquire key seconds s).trace
      = [Cmd.csetnx key (RVal.vstr "locked"), Cmd.cexpire key (seconds.getD 30)] ∧
    (lockAcquire key seconds s).mid.val key = some (RVal.vstr "locked") ∧
    (lockAcquire key seconds s).mid.ttl key = none ∧
    (lockAcquire key seconds s).final.val key = some (RVal.vstr "locked") ∧
    (lockAcquire key seconds s).final.ttl key = some (seconds.getD 30) := by
  have hn : ¬ (seconds.getD 30 ≤ 0) := not_le.mpr hp
  refine ⟨?_, ?_, ?_, ?_, ?_, ?_⟩ <;> simp [lockAcquire, setnx, hv, expire, hn]

/-- C1, counterexample.  At `lock("k", 5)` on an empty store the code
issues two store commands, not one, and in the intermediate state after
the first command — visible to other clients — the key is held with no
expiry.  This refutes "the key is set and given an expiry … as one
atomic store command, so that a key visible to others as held always
carries an expiry". -/
theorem lock_single_atomic_cex :
    ¬ (lockAcquire "k" (some 5) emptyStore).trace.length = 1 ∧
    (lockAcquire "k" (some 5) emptyStore).mid.val "k" = some (RVal.vstr "locked") ∧
    (lockAcquire "k" (some 5) emptyStore).mid.ttl "k" = none := by
  decide

/-- C1, amended.  A successful `acquire(key, t)` issues a `SETNX`
followed by a separate `EXPIRE` — two store commands, between which the
key is visible to others as held with no expiry.  Once both commands
complete the key carries expiry `t`, so in uninterrupted sequential
execution a lock acquired with `ttl = t` and never released becomes
acquirable again by any caller no later than `t` seconds after the
acquisition completes. -/
theorem lock_two_commands_ttl_bound (key : String) (t : Int) (s : Store)
    (hv : s.val key = none) (ht : 0 < t) :
    (lockAcquire key (some t) s).result = some () ∧
    (lockAcquire key (some t) s).trace
      = [Cmd.csetnx key (RVal.vstr "locked"), Cmd.cexpire key t] ∧
    (lockAcquire key (some t) s).mid.val key = some (RVal.vstr "locked") ∧
    (lockAcquire key (some t) s).mid.ttl key = none ∧
    (lockAcquire key (some t) s).final.ttl key = some t ∧
    ∀ (secs : Option Int) (dt : Int), t ≤ dt →
      (lockAcquire key secs (elapse dt (lockAcquire key (some t) s).final)).result
        = some () := by
  have hp : 0 < (some t : Option Int).getD 30 := ht
  obtain ⟨h1, h2, h3, h4, h5, h6⟩ := lockAcquire_free key (some t) s hv hp
  refine ⟨h1, h2, h3, h4, h6, ?_⟩
  intro secs dt hdt
  have hgone : (elapse dt (lockAcquire key (some t) s).final).val key = none := by
    simp [elapse, h6, hdt]
  generalize hg : elapse dt (lockAcquire key (some t) s).final = g at hgone ⊢
  simp [lockAcquire, setnx, hgone]

/-- C1, witness for the amended theorem at `key = "k"`, `t = 5`, the
empty store. -/
theorem lock_two_commands_ttl_bound_w :
    emptyStore.val "k" = none ∧ (0 : Int) < 5 ∧
    (lockAcquire "k" (some 5) emptyStore).result = some () :=
  ⟨by decide, by decide,
   (lock_two_commands_ttl_bound "k" 5 emptyStore (by decide) (by decide)).1⟩

/-- C8.  `acquire` on a key already present returns `null`, leaves the
store untouched (the only command issued is the failing `SETNX`), and
`null` is returned exactly when the set-if-absent fails, i.e. exactly
when the key is present. -/
theorem lock_busy_returns_null (key : String) (seconds : Option Int) (s : Store)
    (v : RVal) (h : s.val key = some v) :
    (lockAcquire key seconds s).result = none ∧
    (lockAcquire key seconds s).final = s ∧
    (lockAcquire key seconds s).trace = [Cmd.csetnx key (RVal.vstr "locked")] ∧
    ∀ s₀ : Store, (lockAcquire key seconds s₀).result = none ↔ ¬ s₀.val key = none := by
  refine ⟨by simp [lockAcquire, setnx, h], by simp [lockAcquire, setnx, h],
    by simp [lockAcquire, setnx, h], ?_⟩
  intro s₀
  match hv : s₀.val key with
  | some w => simp [lockAcquire, setnx, hv]
  | none => simp [lockAcquire, setnx, hv]

/-- C8, witness at a store holding `"k"`. -/
theorem lock_busy_returns_null_w :
    (sset "k" (RVal.vstr "x") emptyStore).val "k" = some (RVal.vstr "x") ∧
    (lockAcquire "k" (some 7) (sset "k" (RVal.vstr "x") emptyStore)).result = none :=
  ⟨by decide,
   (lock_busy_returns_null "k" (some 7) (sset "k" (RVal.vstr "x") emptyStore)
     (RVal.vstr "x") (by decide)).1⟩

/-- C10.  A successful `acquire(key)` with the `seconds` argument
omitted sets the lock key's expiry to `seconds ?? 30 = 30`. -/
theorem lock_default_ttl_30 (key : String) (s : Store) (h : s.val key = none) :
    (lockAcquire key none s).result = some () ∧
    (lockAcquire key none s).final.val key = some (RVal.vstr "locked") ∧
    (lockAcquire key none s).final.ttl key = some 30 := by
  obtain ⟨h1, _, _, _, h5, h6⟩ := lockAcquire_free key none s h (by norm_num)
  exact ⟨h1, h5, h6⟩

/-- C10, witness at the empty store. -/
theorem lock_default_ttl_30_w :
    emptyStore.val "k" = none ∧
    (lockAcquire "k" none emptyStore).final.ttl "k" = some 30 :=
  ⟨by decide, (lock_default_ttl_30 "k" emptyStore (by decide)).2.2⟩

/-- C7.  Constructing a counter runs an unconditional `SET` of the
initial value (`value ?? 0`): whatever the key held before — the state
`s` is arbitrary — afterwards it holds exactly the initial value, and
`get()` reads that value back. -/
theorem counter_construct_overwrites (key : String) (value : Option Int) (s : Store) :
    (counterNew key value s).val key = some (RVal.vint (value.getD 0)) ∧
    counterGet (counterNew key value s) key = some (value.getD 0) := by
  constructor <;> simp [counterNew, sset, counterGet]

/-- C2, counterexample.  On an empty store, `throttle.incr(5)` yields
post-increment count 5 — equal to the amount, so the claim requires the
expiry to be set — yet the key is left with no expiry (the code tests
`count == 1`, not `count == amount`).  Further, with the key at 3 an
explicit amount of 0 increments by 1, not by 0. -/
theorem throttle_expiry_amount_cex :
    (throttleIncr "k" 1000 60 (some 5) emptyStore).map
        (fun p => (p.1, p.2.val "k", p.2.ttl "k"))
      = some (false, some (RVal.vint 5), none) ∧
    (throttleIncr "k" 1000 60 (some 5) emptyStore).map (fun p => p.2.ttl "k")
      ≠ some (some 60) ∧
    (throttleIncr "k" 3 60 (some 0) (sset "k" (RVal.vint 3) emptyStore)).map
        (fun p => (p.1, p.2.val "k"))
      = some (true, some (RVal.vint 4)) := by
  decide

/-- C2, amended.  `incr(amount)` increments the key by the effective
amount (the given amount when non-zero, 1 when zero or omitted) and sets
the key's expiry to `windowSeconds` exactly when the post-increment
count equals 1 — not when it equals the amount — so an increment larger
than 1 that creates the key leaves it with no expiry. -/
theorem throttle_expiry_iff_count_one (key : String) (maxValue winSecs : Int)
    (c : Option Int) (s : Store) (m : Int)
    (hW : 0 < winSecs) (h : intAt s key m) (hwf : wfAt s key) :
    (throttleIncr key maxValue winSecs c s).map
        (fun p => (p.1, p.2.val key, p.2.ttl key))
      = some (decide (m + effAmt c > maxValue), some (RVal.vint (m + effAmt c)),
              if m + effAmt c = 1 then some winSecs else s.ttl key) := by
  obtain ⟨s', h1, h2, h3⟩ := throttleIncr_spec key maxValue winSecs c s m hW h hwf
  rw [h1]; simp [h2, h3]

/-- C2, witness for the amended theorem at amount 5 on the empty store. -/
theorem throttle_expiry_iff_count_one_w :
    (0 : Int) < 60 ∧ intAt emptyStore "k" 0 ∧ wfAt emptyStore "k" ∧
    (throttleIncr "k" 1000 60 (some 5) emptyStore).map
        (fun p => (p.1, p.2.val "k", p.2.ttl "k"))
      = some (decide ((0 : Int) + effAmt (some 5) > 1000),
              some (RVal.vint (0 + effAmt (some 5))),
              if (0 : Int) + effAmt (some 5) = 1 then some 60 else emptyStore.ttl "k") :=
  ⟨by decide, by decide, by decide,
   throttle_expiry_iff_count_one "k" 1000 60 (some 5) emptyStore 0
     (by decide) (by decide) (by decide)⟩

/-- C3, counterexample.  `lock` with `ttlSeconds = 0` still issues its
store commands and returns a handle, and a throttle constructed with
capacity 0 and window 0 still executes `incr` against the store: no
`InvalidArgument` failure happens before (or instead of) store calls. -/
theorem no_invalid_argument_cex :
    (lockAcquire "k" (some 0) emptyStore).trace ≠ [] ∧
    (lockAcquire "k" (some 0) emptyStore).result = some () ∧
    (throttleIncr "k" 0 0 none emptyStore).map Prod.fst = some true := by
  decide

/-- C3, amended.  The constructors perform no argument validation: for
any `ttlSeconds` the lock's first store command (the `SETNX`) is issued
unconditionally, and for any capacity and window the throttle's `incr`
runs its increment against the store and returns the over-budget
comparison; no `InvalidArgument` error exists in the code. -/
theorem constructors_no_validation (key : String) (seconds : Option Int)
    (maxValue winSecs : Int) (c : Option Int) (s : Store) (m : Int)
    (h : intAt s key m) (hwf : wfAt s key) :
    (lockAcquire key seconds s).trace.head?
      = some (Cmd.csetnx key (RVal.vstr "locked")) ∧
    (throttleIncr key maxValue winSecs c s).map Prod.fst
      = some (decide (m + effAmt c > maxValue)) := by
  constructor
  · cases hv : s.val key with
    | some w => simp [lockAcquire, setnx, hv]
    | none => simp [lockAcquire, setnx, hv]
  · exact throttleIncr_result key maxValue winSecs c s m h hwf

/-- C3, witness for the amended theorem with `ttlSeconds = 0`, capacity
0 and window 0 on the empty store. -/
theorem constructors_no_validation_w :
    intAt emptyStore "k" 0 ∧ wfAt emptyStore "k" ∧
    (lockAcquire "k" (some 0) emptyStore).trace.head?
      = some (Cmd.csetnx "k" (RVal.vstr "locked")) :=
  ⟨by decide, by decide,
   (constructors_no_validation "k" (some 0) 0 0 none emptyStore 0
     (by decide) (by decide)).1⟩

/-- C4.  A throttle of capacity `C` (positive window): any `incr` call
returns `count > C` for the post-increment count and stores that count
even when over budget; and starting from an absent key, of `C + 1`
single-unit calls the `C`-th returns false and the `(C+1)`-th true. -/
theorem throttle_over_iff_monotonic (key : String) (capv : Nat) (winSecs : Int)
    (hC : 1 ≤ capv) (hW : 0 < winSecs) :
    (∀ (c : Option Int) (s : Store) (m : Int), intAt s key m → wfAt s key →
      (throttleIncr key (capv : Int) winSecs c s).map (fun p => (p.1, p.2.val key))
        = some (decide (m + effAmt c > (capv : Int)),
                some (RVal.vint (m + effAmt c)))) ∧
    ∀ (s : Store), s.val key = none → wfAt s key →
      ∃ bs s', throttleRunVals key (capv : Int) winSecs (capv + 1) s = some (bs, s') ∧
        bs.get? (capv - 1) = some false ∧ bs.get? capv = some true := by
  constructor
  · intro c s m h hwf
    obtain ⟨s', h1, h2, _⟩ := throttleIncr_spec key (capv : Int) winSecs c s m hW h hwf
    rw [h1]; simp [h2]
  · intro s hv hwf
    obtain ⟨s', h1, _, _⟩ := throttleRunVals_spec key (capv : Int) winSecs hW (capv + 1) s hv hwf
    refine ⟨_, s', h1, ?_, ?_⟩
    · rw [List.get?_map, List.get?_range (by omega)]
      simp only [Option.map_some', Option.some.injEq, decide_eq_false_iff_not]
      omega
    · rw [List.get?_map, List.get?_range (by omega)]
      simp only [Option.map_some', Option.some.injEq, decide_eq_true_eq]
      omega

/-- C4, witness: capacity 2, window 60, empty store — of 3 single-unit
calls, the 2nd returns false and the 3rd true. -/
theorem throttle_over_iff_monotonic_w :
    1 ≤ 2 ∧ (0 : Int) < 60 ∧ emptyStore.val "k" = none ∧ wfAt emptyStore "k" ∧
    ∃ bs s', throttleRunVals "k" ((2 : Nat) : Int) 60 (2 + 1) emptyStore = some (bs, s') ∧
      bs.get? (2 - 1) = some false ∧ bs.get? 2 = some true :=
  ⟨by decide, by decide, by decide, by decide,
   (throttle_over_iff_monotonic "k" 2 60 (by decide) (by decide)).2 emptyStore
     (by decide) (by decide)⟩

/-- C5.  `getMany(field, count)` (`count ≥ 1`) increments the hash field
by `count` in one `HINCRBY`; with `v` the post-increment value the
returned list has `count` entries, entry `i` being `v - count + 1 + i`
(so it is `[v - count + 1, …, v]`); `getOne` returns the post-increment
value of an increment by 1; and on a fresh field `getOne` returns 1,
then 2, and a following `getMany(·, 5)` returns `[3, 4, 5, 6, 7]`. -/
theorem serial_getMany_range (h : Hash) (field : String) (count : Int)
    (hc : 1 ≤ count) :
    (serialGetMany h field count).1.length = count.toNat ∧
    (∀ i (hi : i < (serialGetMany h field count).1.length),
      (serialGetMany h field count).1.get ⟨i, hi⟩
        = ((h field).getD 0 + count) - count + 1 + (i : Int)) ∧
    (serialGetMany h field count).2 field = some ((h field).getD 0 + count) ∧
    (serialGetOne h field).1 = (h field).getD 0 + 1 ∧
    ((serialGetOne emptyHash "seq").1 = 1 ∧
      (serialGetOne (serialGetOne emptyHash "seq").2 "seq").1 = 2 ∧
      (serialGetMany (serialGetOne (serialGetOne emptyHash "seq").2 "seq").2 "seq" 5).1
        = [3, 4, 5, 6, 7]) := by
  refine ⟨?_, ?_, ?_, ?_, by decide, by decide, by decide⟩
  · simp [serialGetMany, hincrby]
  · intro i hi
    simp [serialGetMany, hincrby]
  · simp [serialGetMany, hincrby]
  · simp [serialGetOne, hincrby]

/-- C5, witness at a fresh field with `count = 5`. -/
theorem serial_getMany_range_w :
    (1 : Int) ≤ 5 ∧
    (serialGetMany emptyHash "f" 5).1.length = (5 : Int).toNat ∧
    (serialGetMany emptyHash "f" 5).2 "f" = some ((emptyHash "f").getD 0 + 5) :=
  ⟨by decide, (serial_getMany_range emptyHash "f" 5 (by decide)).1,
   (serial_getMany_range emptyHash "f" 5 (by decide)).2.2.1⟩

/-- C6.  A counter constructed with initial value `init` then run
through any sequence of `incr`/`decr` calls with positive (or omitted)
amounts: each call returns the running value after applying its own
amount (`runVals`), and a final `get()` reads the initial value plus the
summed increment amounts minus the summed decrement amounts.  In
particular, from initial value 99 the calls `incr()`, `incr(20)`,
`decr(33)` return 100, 120, 87. -/
theorem counter_arithmetic (key : String) (init : Option Int) (ops : List CtrOp)
    (s : Store) (hpos : ∀ op ∈ ops, ctrOpPos op) :
    (∃ s', counterRun key ops (counterNew key init s)
         = some (runVals (init.getD 0) ops, s') ∧
       counterGet s' key = some (init.getD 0 + incrAmtSum ops - decrAmtSum ops)) ∧
    (counterRun "cnt" [CtrOp.cincr none, CtrOp.cincr (some 20), CtrOp.cdecr (some 33)]
        (counterNew "cnt" (some 99) emptyStore)).map Prod.fst
      = some [100, 120, 87] := by
  refine ⟨?_, by decide⟩
  have hv : (counterNew key init s).val key = some (RVal.vint (init.getD 0)) := by
    simp [counterNew, sset]
  obtain ⟨s', h1, h2, _⟩ := counterRun_spec key ops (counterNew key init s) (init.getD 0) hv
  refine ⟨s', h1, ?_⟩
  rw [deltaSum_of_pos ops hpos] at h2
  simp [counterGet, h2, add_sub_assoc]

/-- C6, witness: the concrete 99 / `incr()` / `incr(20)` / `decr(33)`
scenario. -/
theorem counter_arithmetic_w :
    (∀ op ∈ [CtrOp.cincr none, CtrOp.cincr (some 20), CtrOp.cdecr (some 33)],
      ctrOpPos op) ∧
    (counterRun "cnt" [CtrOp.cincr none, CtrOp.cincr (some 20), CtrOp.cdecr (some 33)]
        (counterNew "cnt" (some 99) emptyStore)).map Prod.fst
      = some [100, 120, 87] :=
  ⟨by decide,
   (counter_arithmetic "cnt" (some 99)
     [CtrOp.cincr none, CtrOp.cincr (some 20), CtrOp.cdecr (some 33)]
     emptyStore (by decide)).2⟩

/-- C9.  An explicit amount of 0 is falsy in `if (c)`, so `incr(0)` and
`decr(0)` take the same branch as an omitted amount: on a counter they
change the stored value by 1 (not 0) and on a throttle `incr(0)` equals
`incr()` and also advances the count by 1. -/
theorem zero_amount_increments_by_one (key : String) (s : Store) (m : Int)
    (maxValue winSecs : Int) (hW : 0 < winSecs)
    (h : s.val key = some (RVal.vint m)) :
    counterIncr key (some 0) s = counterIncr key none s ∧
    (counterIncr key (some 0) s).map Prod.fst = some (m + 1) ∧
    (counterDecr key (some 0) s).map Prod.fst = some (m - 1) ∧
    throttleIncr key maxValue winSecs (some 0) s
      = throttleIncr key maxValue winSecs none s ∧
    (throttleIncr key maxValue winSecs (some 0) s).map (fun p => p.2.val key)
      = some (some (RVal.vint (m + 1))) := by
  have hwf : wfAt s key := fun hnone => by rw [hnone] at h; cases h
  have h0 : effAmt (some 0) = 1 := by simp [effAmt, numTruthy]
  refine ⟨by simp [counterIncr, numTruthy], ?_, ?_,
    by simp [throttleIncr, numTruthy], ?_⟩
  · rw [counterIncr_eq, h0]
    obtain ⟨s₁, he, _, _⟩ := incrby_int key 1 s m (Or.inl h) hwf
    simp [he]
  · rw [counterDecr_eq, h0]
    obtain ⟨s₁, he, _, _⟩ := decrby_int key 1 s m (Or.inl h) hwf
    simp [he]
  · obtain ⟨s', h1, h2, _⟩ :=
      throttleIncr_spec key maxValue winSecs (some 0) s m hW (Or.inl h) hwf
    rw [h0] at h2
    rw [h1]
    simp [h2]

/-- C9, witness at a key holding 3 (counter) with a capacity-10,
60-second throttle. -/
theorem zero_amount_increments_by_one_w :
    (0 : Int) < 60 ∧
    (sset "k" (RVal.vint 3) emptyStore).val "k" = some (RVal.vint 3) ∧
    (counterIncr "k" (some 0) (sset "k" (RVal.vint 3) emptyStore)).map Prod.fst
      = some (3 + 1) :=
  ⟨by decide, by decide,
   (zero_amount_increments_by_one "k" (sset "k" (RVal.vint 3) emptyStore) 3 10 60
     (by decide) (by decide)).2.1⟩
